import Mathlib

/-!
Shallow embedding of the crawler script (sitemap resolution, section
classification, article extraction, record assembly, the main crawl loop
and its CSV serialization boundary), together with theorems settling the
specification claims against it.  Machine strings are modelled as Lean
`String` values, with character-list helpers where the Python code works
character by character; timestamps are modelled as integers; the HTTP
transport, the HTML parser and the ISO-8601 date parser of the standard
library are oracles passed in explicitly, exactly at the boundaries the
specification declares external.
-/

/-- Character-list test: is the first list an initial run of the second?
Helper for the substring test below. -/
def leadsWith : List Char → List Char → Bool
  | [], _ => true
  | _ :: _, [] => false
  | a :: as, b :: bs => a == b && leadsWith as bs

/-- Substring test on character lists: does `needle` occur (contiguously)
inside the second list?  Models the Python expression `needle in hay`. -/
def containsB (needle : List Char) : List Char → Bool
  | [] => leadsWith needle []
  | c :: t => leadsWith needle (c :: t) || containsB needle t

/-- Python `needle in hay` on `String` values. -/
def containsSub (needle hay : String) : Bool := containsB needle.data hay.data

/-- Python `str.strip()` leading part: drop leading whitespace. -/
def stripLead (l : List Char) : List Char := l.dropWhile Char.isWhitespace

/-- Python `str.strip()` trailing part: drop trailing whitespace. -/
def stripTrail (l : List Char) : List Char :=
  (l.reverse.dropWhile Char.isWhitespace).reverse

/-- Python `str.strip()` on a character list (whitespace per `Char.isWhitespace`). -/
def pyStrip (l : List Char) : List Char := stripTrail (stripLead l)

/-- Python `str.strip()` on a `String`. -/
def pyStripS (s : String) : String := ⟨pyStrip s.data⟩

/-- Python `s.replace(chr(10), space)`: map every newline to a space. -/
def replaceNl (l : List Char) : List Char :=
  l.map (fun c => if c = '\n' then ' ' else c)

/-- Python `s.replace(Z, +00:00)` used by the date normalizers. -/
def replaceZ : List Char → List Char
  | [] => []
  | c :: t =>
    if c = 'Z' then '+' :: '0' :: '0' :: ':' :: '0' :: '0' :: replaceZ t
    else c :: replaceZ t

/-- Decimal digit character for a value below ten. -/
def digitChar (n : Nat) : Char := Char.ofNat (48 + n)

/-- Decimal digit run of `n`, fuelled so that it computes by kernel
reduction; the fuel only needs to exceed the number of digits. -/
def natDigits : Nat → Nat → List Char
  | 0, _ => []
  | fuel + 1, n =>
    if n < 10 then [digitChar n] else natDigits fuel (n / 10) ++ [digitChar (n % 10)]

/-- Python `str(n)` for a natural number. -/
def pyStrN (n : Nat) : String := ⟨natDigits (n + 1) n⟩

/-- Maximal leading digit run of a character list, with the remainder. -/
def takeDigits : List Char → List Char × List Char
  | [] => ([], [])
  | c :: t =>
    if c.isDigit then
      let p := takeDigits t
      (c :: p.1, p.2)
    else ([], c :: t)

/-- One attempt of the source regex (source line 167) at the current
position: a slash, then one or more digits, then either the end of the
input or one of the characters slash, question mark, hash. -/
def idMatchHere : List Char → Option (List Char)
  | [] => none
  | c :: rest =>
    if c = '/' then
      let p := takeDigits rest
      if p.1 = [] then none
      else
        match p.2 with
        | [] => some p.1
        | c2 :: _ => if c2 = '/' ∨ c2 = '?' ∨ c2 = '#' then some p.1 else none
    else none

/-- Python `re.search`: try the pattern at every position from the left
and return the first (leftmost) match. -/
def searchId : List Char → Option (List Char)
  | [] => none
  | c :: t =>
    match idMatchHere (c :: t) with
    | some ds => some ds
    | none => searchId t

/-- Model of `extract_id_from_url` (source lines 166 to 168): the group
captured by the leftmost match, or the empty string when there is none. -/
def extract_id_from_url (u : String) : String := ⟨(searchId u.data).getD []⟩

/-- The id injected in `main` (source line 218): the extracted id, or the
current Unix timestamp printed as a string when the extraction is empty. -/
def mkId (loc : String) (nowTs : Nat) : String :=
  if extract_id_from_url loc = "" then pyStrN nowTs else extract_id_from_url loc

/-- Specification-side notion, written from the words of the spec: `ds`
is a purely numeric path segment of `u` starting at position `i`, i.e. a
slash, a nonempty run of digits, and then either the end of the string or
a slash, question mark or hash character. -/
def NumSegAt (u : List Char) (i : Nat) (ds : List Char) : Prop :=
  ds ≠ [] ∧ ds.all Char.isDigit = true ∧
    ∃ r, u.drop i = '/' :: (ds ++ r) ∧
      (r = [] ∨ ∃ c t, r = c :: t ∧ (c = '/' ∨ c = '?' ∨ c = '#'))

/-- Specification-side checker for a numeric path segment starting at the
head of the list, written independently of the source helper. -/
def numSegHere (l : List Char) : Option (List Char) :=
  match l with
  | '/' :: rest =>
    let ds := rest.takeWhile Char.isDigit
    let r := rest.dropWhile Char.isDigit
    if ds = [] then none
    else
      match r with
      | [] => some ds
      | c :: _ => if c = '/' ∨ c = '?' ∨ c = '#' then some ds else none
  | _ => none

/-- Specification-side value: the LAST purely numeric path segment of
`u`, scanning all positions and keeping the rightmost match. -/
def lastNumericSegment_spec (u : List Char) : Option (List Char) :=
  (List.range u.length).foldl
    (fun acc i =>
      match numSegHere (u.drop i) with
      | some ds => some ds
      | none => acc)
    none

/-- A sitemap URL-set entry: a location and an optional parsed
last-modified timestamp (`lastmod` set to absent on parse failure). -/
structure UrlEntry where
  loc : String
  lastmod : Option Int
deriving DecidableEq

/-- A fetched-and-parsed sitemap document, abstracted at the XML layer:
the `loc` children of its `sitemap` elements and its URL-set entries. -/
structure SitemapDoc where
  sitemapLocs : List String
  urlEntries : List UrlEntry
deriving DecidableEq

/-- The mutable state of the recursive `load_one` closure (source lines
84 to 118): the set of queued child sitemap locations, the accumulated
URL entries, and a log of every document fetch that was attempted. -/
structure RState where
  seen : List String
  urls : List UrlEntry
  fetched : List String
deriving DecidableEq

/-- Model of the recursive `load_one` closure (source lines 88 to 116).
The fetch-and-parse of one document is the oracle `fd`; `none` models a
fetch or parse failure, which contributes zero entries.  The recursion is
fuelled; the `seen` cap bounds the real recursion depth, so a fuel above
`maxS + 1` is never exhausted.  Note that the root URL is never added to
`seen`, exactly as in the source. -/
def loadOne (fd : String → Option SitemapDoc) (maxS : Nat) :
    Nat → String → RState → RState
  | 0, _, st => st
  | fuel + 1, url, st =>
    if maxS ≤ st.seen.length then st
    else
      match fd url with
      | none => { st with fetched := st.fetched ++ [url] }
      | some doc =>
        let st1 : RState := { st with fetched := st.fetched ++ [url] }
        let st2 : RState := doc.sitemapLocs.foldl
          (fun acc loc =>
            if loc ≠ "" ∧ ¬ loc ∈ acc.seen then
              loadOne fd maxS fuel loc { acc with seen := acc.seen ++ [loc] }
            else acc)
          st1
        { st2 with urls := st2.urls ++ doc.urlEntries.filter (fun e => e.loc ≠ "") }

/-- Model of `fetch_sitemap_urls` (source lines 84 to 118); the source
default for `max_sitemaps` is 500 and `main` uses it. -/
def fetch_sitemap_urls (fd : String → Option SitemapDoc) (rootUrl : String)
    (maxS : Nat) : RState :=
  loadOne fd maxS (maxS + 2) rootUrl ⟨[], [], []⟩

/-- A two-sitemap cycle: document A lists B as a child sitemap and B
lists A back; each carries its own URL-set entries. -/
def cycleFd (eA eB : List UrlEntry) : String → Option SitemapDoc := fun u =>
  if u = "A" then some ⟨["B"], eA⟩
  else if u = "B" then some ⟨["A"], eB⟩
  else none

/-- Model of the `SUBFILTERS` table (source lines 18 to 25). -/
def SUBFILTERS (s : String) : Option (String → Bool) :=
  if s = "economics" then some (fun u => containsSub "/money/economics/thai_economics/" u)
  else if s = "investment" then some (fun u => containsSub "/money/investment/" u)
  else if s = "tech_innovation" then some (fun u => containsSub "/money/tech_innovation/" u)
  else if s = "politic" then some (fun u => containsSub "/news/politic/" u)
  else if s = "personal_finance" then some (fun u => containsSub "/money/personal_finance/" u)
  else if s = "business_marketing" then some (fun u => containsSub "/money/business_marketing/" u)
  else none

/-- Model of the section path table (source lines 27 to 34, the
`SECTION_PREFIX` dictionary of the source). -/
def SECTION_PREFIX_TBL (s : String) : Option String :=
  if s = "economics" then some "/money/economics"
  else if s = "investment" then some "/money/investment"
  else if s = "tech_innovation" then some "/money/tech_innovation"
  else if s = "politic" then some "/news/politic"
  else if s = "personal_finance" then some "/money/personal_finance"
  else if s = "business_marketing" then some "/money/business_marketing"
  else none

/-- Model of `which_section` (source lines 157 to 164): walk the given
section names in order; a section is returned when its path string is
nonempty, occurs in the URL, and its sub-filter (when present) accepts
the URL; otherwise the walk continues. -/
def which_section (url : String) : List String → Option String
  | [] => none
  | s :: rest =>
    match SECTION_PREFIX_TBL s with
    | none => which_section url rest
    | some p =>
      if p ≠ "" ∧ containsSub p url then
        match SUBFILTERS s with
        | none => some s
        | some f => if f url then some s else which_section url rest
      else which_section url rest

/-- Specification-side classification rule, written from the words of the
spec: a section matches iff its path string occurs in the URL and its
sub-filter, when present, accepts the URL. -/
def ruleMatches (url s : String) : Bool :=
  match SECTION_PREFIX_TBL s with
  | none => false
  | some p =>
    containsSub p url &&
      (match SUBFILTERS s with
       | none => true
       | some f => f url)

/-- Model of `csv_escape` (source lines 50 to 53): `None` becomes the
empty string; otherwise newlines are replaced by spaces and the result is
stripped.  The source defines this helper but never calls it. -/
def csv_escape (v : Option String) : String :=
  match v with
  | none => ""
  | some s => ⟨pyStrip (replaceNl s.data)⟩

/-- An HTML document abstracted at the BeautifulSoup query layer: each
field is the result of the one query the extractor performs on it.  A
`some none` value models a tag that exists but lacks a content
attribute (`Tag.get` then yields `None`). -/
structure HtmlDoc where
  ogTitleTag : Option (Option String)
  h1Text : Option String
  pubTimeTag : Option (Option String)
  select : String → Option (List String)
  ogDescTag : Option (Option String)
  nameDescTag : Option (Option String)

/-- The extractor output fragment (source lines 149 to 155); `headline`
is optional because `Tag.get` can yield `None`. -/
structure ArticleMeta where
  url : String
  headline : Option String
  summary : String
  content : String
  published_iso : String
deriving DecidableEq

/-- The fixed ordered selector list (source line 135). -/
def candidateSelectors : List String := ["main", "article", ".article-content", ".content-article"]

/-- The content fallback chain (source lines 134 to 143): the first
selector whose container holds at least one stripped paragraph longer
than two characters wins; its qualifying paragraphs are joined with
newlines; otherwise the content is empty. -/
def contentOf (sel : String → Option (List String)) : List String → String
  | [] => ""
  | c :: rest =>
    match sel c with
    | none => contentOf sel rest
    | some ps =>
      let qs := (ps.map pyStripS).filter (fun p => 2 < p.length)
      if qs = [] then contentOf sel rest
      else String.intercalate "\n" qs

/-- Model of `normalize_date` (source lines 55 to 62): empty or absent
input yields `none`; otherwise the literal Z suffix is expanded and the
ISO-8601 parse-and-reprint of the standard library (the oracle `pIso`)
is attempted, with `none` on parse failure. -/
def normalize_date (pIso : String → Option String) (dateStr : Option String) :
    Option String :=
  match dateStr with
  | none => none
  | some s => if s = "" then none else pIso ⟨replaceZ s.data⟩

/-- Model of `extract_article` (source lines 120 to 155). -/
def extract_article (pIso : String → Option String) (d : HtmlDoc) (url : String) :
    ArticleMeta :=
  let headline : Option String :=
    match d.ogTitleTag with
    | some attr => attr
    | none =>
      match d.h1Text with
      | some t => some (pyStripS t)
      | none => some ""
  let dateStr : Option String :=
    match d.pubTimeTag with
    | some attr => attr
    | none => some ""
  let published : String := (normalize_date pIso dateStr).getD ""
  let content : String := contentOf d.select candidateSelectors
  let descTag : Option (Option String) :=
    match d.ogDescTag with
    | some a => some a
    | none => d.nameDescTag
  let summary : String :=
    match descTag with
    | none => ""
    | some a => pyStripS (a.getD "")
  ⟨url, headline, summary, content, published⟩

/-- The full record dictionary assembled in `main` (source lines 215 to
224); field order is the dict insertion order.  The Lean keyword forces
the section field to be named `sec`. -/
structure ArticleRecord where
  agency : String
  sec : String
  id : String
  published_iso : String
  headline : Option String
  summary : String
  content : String
  url : String
deriving DecidableEq

/-- Record assembly in `main` (source lines 215 to 224). -/
def assembleRecord (s : String) (nowTs : Nat) (loc : String) (meta : ArticleMeta) :
    ArticleRecord :=
  { agency := "thairath", sec := s, id := mkId loc nowTs,
    published_iso := meta.published_iso, headline := meta.headline,
    summary := meta.summary, content := meta.content, url := loc }

/-- The values of one record as handed to the CSV writer (source lines
236 to 244): `DictWriter.writerows` receives each dict value unchanged,
in insertion order; no escaping helper is applied to them. -/
def rowValues (r : ArticleRecord) : List (Option String) :=
  [some r.agency, some r.sec, some r.id, some r.published_iso,
   r.headline, some r.summary, some r.content, some r.url]

/-- Observable events of the retrying fetch client. -/
inductive FetchEv where
  | attempt (url : String) (timeoutSec : Nat)
  | sleepTenths (tenths : Nat)
deriving DecidableEq

/-- Is the event a network attempt? -/
def FetchEv.isAttempt : FetchEv → Bool
  | .attempt _ _ => true
  | .sleepTenths _ => false

/-- Model of `fetch_with_fast_retry` (source lines 75 to 80): one attempt
with timeout 2; on any failure a 0.2 second sleep and exactly one more
attempt with timeout 3, whose outcome (success or failure) is returned
as is.  The raw transport `GET(url, timeout)` is the oracle `net`; the
second component records the performed events in order. -/
def fetch_with_fast_retry (net : String → Nat → Except String String)
    (url : String) : Except String String × List FetchEv :=
  match net url 2 with
  | .ok body => (.ok body, [.attempt url 2])
  | .error _ => (net url 3, [.attempt url 2, .sleepTenths 2, .attempt url 3])

/-- One step of the filter loop in `main` (source lines 193 to 201); the
state is the filtered list together with the `seen_locs` set. -/
def filterStep (secs : List String) (sinceDate : Int)
    (acc : List UrlEntry × List String) (item : UrlEntry) :
    List UrlEntry × List String :=
  match which_section item.loc secs with
  | none => acc
  | some _ =>
    if item.loc ∈ acc.2 then acc
    else
      match item.lastmod with
      | some lm =>
        if lm < sinceDate then acc
        else (acc.1 ++ [item], acc.2 ++ [item.loc])
      | none => (acc.1 ++ [item], acc.2 ++ [item.loc])

/-- The filtered candidate list of `main` (source lines 193 to 201). -/
def filterCandidates (secs : List String) (sinceDate : Int)
    (entries : List UrlEntry) : List UrlEntry :=
  (entries.foldl (filterStep secs sinceDate) ([], [])).1

/-- Keys of a Python dict built by comprehension over a list: first
occurrence fixes the position, duplicates collapse. -/
def dedupKeys (l : List String) : List String :=
  l.foldl (fun acc s => if s ∈ acc then acc else acc ++ [s]) []

/-- The initial per-section results dict of `main` (source line 205). -/
def results0 (secs : List String) : List (String × List ArticleRecord) :=
  (dedupKeys secs).map (fun s => (s, []))

/-- Python `results[sec].append(record)` on the association-list model:
`none` models the KeyError raised when the key is absent. -/
def appendRec : List (String × List ArticleRecord) → String → ArticleRecord →
    Option (List (String × List ArticleRecord))
  | [], _, _ => none
  | (k, v) :: rest, s, r =>
    if k = s then some ((k, v ++ [r]) :: rest)
    else (appendRec rest s r).map (fun res => (k, v) :: res)

/-- The external capabilities `main` consumes: sitemap fetch-and-parse,
raw HTTP GET, the HTML parser, the ISO-8601 parser, and the two clocks
(`time.time()` and `datetime.now()`). -/
structure Oracles where
  fd : String → Option SitemapDoc
  net : String → Nat → Except String String
  parseHtml : String → HtmlDoc
  pIso : String → Option String
  nowTs : Nat
  now : Int

/-- One iteration of the processing loop in `main` (source lines 207 to
233): the state is (results, ok, fail).  A fetch failure, a vanished
section, or a missing results key are all caught by the except clause
and counted as one failure; a success appends the assembled record and
counts ok. -/
def processStep (o : Oracles) (secs : List String)
    (st : List (String × List ArticleRecord) × Nat × Nat) (item : UrlEntry) :
    List (String × List ArticleRecord) × Nat × Nat :=
  match (fetch_with_fast_retry o.net item.loc).1 with
  | .error _ => (st.1, st.2.1, st.2.2 + 1)
  | .ok html =>
    let meta := extract_article o.pIso (o.parseHtml html) item.loc
    match which_section item.loc secs with
    | none => (st.1, st.2.1, st.2.2 + 1)
    | some s =>
      match appendRec st.1 s (assembleRecord s o.nowTs item.loc meta) with
      | none => (st.1, st.2.1, st.2.2 + 1)
      | some res2 => (res2, st.2.1 + 1, st.2.2)

/-- The whole processing loop of `main` over the filtered candidates. -/
def processLoop (o : Oracles) (secs : List String) (filtered : List UrlEntry) :
    List (String × List ArticleRecord) × Nat × Nat :=
  filtered.foldl (processStep o secs) (results0 secs, 0, 0)

/-- The run parameters `main` reads (source lines 172 to 183), already
typed; `sections` is the comma-split requested list. -/
structure Args where
  sitemap : Option String
  sinceDays : Int
  sections : List String

/-- The observable outcome of one run of `main`. -/
inductive RunOutcome where
  | configError
  | completed (ok fail : Nat) (results : List (String × List ArticleRecord))
deriving DecidableEq

/-- Model of `main` (source lines 172 to 246): a missing or empty sitemap
parameter prints an error and returns before touching any oracle;
otherwise the sitemap is resolved, candidates are filtered, and the
processing loop runs. -/
def runMain (o : Oracles) (a : Args) : RunOutcome :=
  match a.sitemap with
  | none => .configError
  | some su =>
    if su = "" then .configError
    else
      let entries := (fetch_sitemap_urls o.fd su 500).urls
      let filtered := filterCandidates a.sections (o.now - a.sinceDays) entries
      let st := processLoop o a.sections filtered
      .completed st.2.1 st.2.2 st.1

/-- The process completion status: the script never calls `sys.exit` and
`main` returns normally on both the config-error path (source lines 175
to 177) and the completed path, so the interpreter exits with status 0
in every outcome. -/
def exitStatus : RunOutcome → Nat
  | .configError => 0
  | .completed _ _ _ => 0

/-- A trivially empty parsed HTML document. -/
def htmlEmpty : HtmlDoc := ⟨none, none, none, fun _ => none, none, none⟩

/-- A document whose og title meta tag exists without a content
attribute. -/
def htmlNoContentAttr : HtmlDoc := ⟨some none, none, none, fun _ => none, none, none⟩

/-- A document with a main container holding two short paragraphs. -/
def htmlTwoParas : HtmlDoc :=
  ⟨none, none, none, fun s => if s = "main" then some ["abc", "def"] else none,
   none, none⟩

/-- Oracles that always fail or return nothing. -/
def oraclesTrivial : Oracles :=
  ⟨fun _ => none, fun _ _ => .error "", fun _ => htmlEmpty, fun _ => none, 0, 0⟩

theorem loadOne_succ (fd : String → Option SitemapDoc) (maxS fuel : Nat) (url : String) (st : RState) :
    loadOne fd maxS (fuel + 1) url st =
      (if maxS ≤ st.seen.length then st
       else
        match fd url with
        | none => { st with fetched := st.fetched ++ [url] }
        | some doc =>
          let st1 : RState := { st with fetched := st.fetched ++ [url] }
          let st2 : RState := doc.sitemapLocs.foldl
            (fun acc loc =>
              if loc ≠ "" ∧ ¬ loc ∈ acc.seen then
                loadOne fd maxS fuel loc { acc with seen := acc.seen ++ [loc] }
              else acc)
            st1
          { st2 with urls := st2.urls ++ doc.urlEntries.filter (fun e => e.loc ≠ "") }) := rfl

theorem cycle_lemma (fuel : Nat) (eA eB : List UrlEntry) :
    loadOne (cycleFd eA eB) 500 (fuel + 1 + 1 + 1) "A" ⟨[], [], []⟩ =
      ⟨["B", "A"],
       eA.filter (fun e => e.loc ≠ "") ++
         (eB.filter (fun e => e.loc ≠ "") ++ eA.filter (fun e => e.loc ≠ "")),
       ["A", "B", "A"]⟩ := by
  simp [loadOne_succ, cycleFd]

/-- C2 counterexample: in the cycle where sitemap A lists B and B lists
A back, the resolver fetches the root document A twice and contributes
the URL-set entries of A twice, refuting both the never-fetch-twice and
the exactly-once parts of the claim at this concrete input. -/
theorem c2_counterexample :
    (fetch_sitemap_urls (cycleFd [⟨"a1", none⟩] [⟨"b1", none⟩]) "A" 500).fetched.count "A" = 2 ∧
    (fetch_sitemap_urls (cycleFd [⟨"a1", none⟩] [⟨"b1", none⟩]) "A" 500).urls.count ⟨"a1", none⟩ = 2 ∧
    (fetch_sitemap_urls (cycleFd [⟨"a1", none⟩] [⟨"b1", none⟩]) "A" 500).urls =
      [⟨"a1", none⟩, ⟨"b1", none⟩, ⟨"a1", none⟩] := by
  decide

/-- C2 (amended): for every cyclic pair of sitemaps A and B (A lists B,
B lists A back, resolution started at A), resolution terminates; B is
fetched exactly once but the root A is fetched twice, because the root
URL is never added to the `seen` set; the result is the entries of A,
then the entries of B, then the entries of A again — so the entries of
B appear exactly once while the entries of the root appear twice. -/
theorem c2_cycle_terminates_root_fetched_twice (eA eB : List UrlEntry) :
    (fetch_sitemap_urls (cycleFd eA eB) "A" 500).fetched = ["A", "B", "A"] ∧
    (fetch_sitemap_urls (cycleFd eA eB) "A" 500).urls =
      eA.filter (fun e => e.loc ≠ "") ++
        (eB.filter (fun e => e.loc ≠ "") ++ eA.filter (fun e => e.loc ≠ "")) := by
  rw [fetch_sitemap_urls, show (500 : Nat) + 2 = 499 + 1 + 1 + 1 from rfl, cycle_lemma]
  exact ⟨rfl, rfl⟩

/-- C5 counterexample: with the required sitemap parameter missing, the
run takes the config-error path and still completes with status 0, not
the non-zero status the claim requires in exactly that case. -/
theorem c5_counterexample :
    runMain oraclesTrivial ⟨none, 1825, ["politic"]⟩ = .configError ∧
    exitStatus (runMain oraclesTrivial ⟨none, 1825, ["politic"]⟩) = 0 :=
  ⟨rfl, rfl⟩

/-- C5 (amended): the completion status is zero in every outcome — the
script never signals non-zero, so per-article fetch failures never do;
and when the sitemap parameter is missing the run aborts on the
config-error path whose result is independent of every external oracle,
hence before any network activity. -/
theorem c5_exit_status_always_zero (o o2 : Oracles) (a : Args) :
    exitStatus (runMain o a) = 0 ∧
    (a.sitemap = none → runMain o a = .configError ∧ runMain o a = runMain o2 a) := by
  refine ⟨?_, ?_⟩
  · cases runMain o a <;> rfl
  · intro h
    simp [runMain, h]

theorem c5_exit_status_always_zero_witness :
    runMain oraclesTrivial ⟨none, 30, []⟩ = .configError :=
  ((c5_exit_status_always_zero oraclesTrivial oraclesTrivial ⟨none, 30, []⟩).2 rfl).1

/-- C9: the retrying fetch first attempts with the short timeout 2; if
that succeeds its body is returned after a single attempt; on any
failure it sleeps 0.2 seconds and attempts exactly once more with the
longer timeout 3, returning that second outcome as is (a success gives
its body, a failure propagates as the single final failure); no run
performs more than two attempts. -/
theorem c9_fetch_retry_policy (net : String → Nat → Except String String) (url : String) :
    ((fetch_with_fast_retry net url).2.filter FetchEv.isAttempt).length ≤ 2 ∧
    (∀ b, net url 2 = .ok b →
      fetch_with_fast_retry net url = (.ok b, [.attempt url 2])) ∧
    (∀ e, net url 2 = .error e →
      (fetch_with_fast_retry net url).2 =
        [.attempt url 2, .sleepTenths 2, .attempt url 3] ∧
      (fetch_with_fast_retry net url).1 = net url 3) := by
  unfold fetch_with_fast_retry
  cases h : net url 2 with
  | error e => simp [FetchEv.isAttempt]
  | ok b => simp [FetchEv.isAttempt]

theorem c9_fetch_retry_policy_witness :
    (fetch_with_fast_retry
        (fun _ t => if t = 2 then (.error "timeout" : Except String String) else .ok "body")
        "u").1 = .ok "body" := by
  have h :=
    (c9_fetch_retry_policy
        (fun _ t => if t = 2 then (.error "timeout" : Except String String) else .ok "body")
        "u").2.2 "timeout" rfl
  exact h.2.trans rfl

theorem dropWhile_head_false {p : Char → Bool} :
    ∀ {l c t : _}, List.dropWhile p l = c :: t → p c = false := by
  intro l
  induction l with
  | nil => intro c t h; cases h
  | cons a l ih =>
    intro c t h
    by_cases hp : p a
    · exact ih (by simpa [List.dropWhile_cons_of_pos hp] using h)
    · rw [List.dropWhile_cons_of_neg hp] at h
      cases h
      simpa using hp

theorem dropWhile_of_head_false {p : Char → Bool} {x : List Char}
    (h : ∀ c t, x = c :: t → p c = false) : x.dropWhile p = x := by
  cases x with
  | nil => rfl
  | cons c t => rw [List.dropWhile_cons_of_neg (by simp [h c t rfl])]

theorem dropWhile_idem_char (p : Char → Bool) (l : List Char) :
    (l.dropWhile p).dropWhile p = l.dropWhile p :=
  dropWhile_of_head_false (fun _ _ h => dropWhile_head_false h)

theorem stripTrail_subset (l : List Char) : stripTrail l ⊆ l := by
  intro x hx
  have h1 : l.reverse.dropWhile Char.isWhitespace ⊆ l.reverse :=
    (List.dropWhile_suffix _).subset
  have hx2 : x ∈ l.reverse.dropWhile Char.isWhitespace := by
    simpa [stripTrail] using hx
  simpa using h1 hx2

theorem pyStrip_subset (l : List Char) : pyStrip l ⊆ l := by
  intro x hx
  have h1 : x ∈ stripLead l := stripTrail_subset _ hx
  exact (List.dropWhile_suffix _).subset h1

theorem stripTrail_idem (x : List Char) : stripTrail (stripTrail x) = stripTrail x := by
  simp [stripTrail, dropWhile_idem_char]

theorem stripTrail_prefix (x : List Char) : stripTrail x <+: x := by
  have h : (stripTrail x).reverse <:+ x.reverse := by
    simpa [stripTrail] using List.dropWhile_suffix (l := x.reverse) Char.isWhitespace
  exact List.reverse_suffix.1 h

theorem stripLead_stripTrail_stripLead (l : List Char) :
    stripLead (stripTrail (stripLead l)) = stripTrail (stripLead l) := by
  apply dropWhile_of_head_false
  intro c t h
  obtain ⟨rest, hrest⟩ := stripTrail_prefix (stripLead l)
  rw [h] at hrest
  exact dropWhile_head_false (p := Char.isWhitespace) (l := l)
    (by simpa [stripLead] using hrest.symm)

theorem pyStrip_idem (l : List Char) : pyStrip (pyStrip l) = pyStrip l := by
  unfold pyStrip
  rw [show stripLead (stripTrail (stripLead l)) = stripTrail (stripLead l) from
        stripLead_stripTrail_stripLead l,
      stripTrail_idem]

theorem replaceNl_no_newline (l : List Char) :
    (replaceNl l).all (fun c => c ≠ '\n') = true := by
  rw [List.all_eq_true]
  intro x hx
  simp only [replaceNl, List.mem_map] at hx
  obtain ⟨c, _, hc⟩ := hx
  by_cases h : c = '\n' <;> simp [← hc, h]

theorem csv_escape_no_newline (v : Option String) :
    (csv_escape v).data.all (fun c => c ≠ '\n') = true := by
  cases v with
  | none => rfl
  | some s =>
    rw [List.all_eq_true]
    intro x hx
    have h1 : x ∈ replaceNl s.data := pyStrip_subset _ (by simpa [csv_escape] using hx)
    have h2 := replaceNl_no_newline s.data
    rw [List.all_eq_true] at h2
    exact h2 x h1

/-- C4 counterexample: a record assembled by the pipeline from a page
with two paragraphs carries an embedded newline in its content field,
and that exact value is handed to the CSV writer; applying the (unused)
escaping helper would have changed it, so the handed value is not
newline-collapsed. -/
theorem c4_counterexample :
    some "abc\ndef" ∈ rowValues
        (assembleRecord "politic" 5 "https://x/news/politic/9"
          (extract_article (fun _ => none) htmlTwoParas "https://x/news/politic/9")) ∧
    csv_escape (some "abc\ndef") = "abc def" ∧
    ("abc\ndef" : String) ≠ "abc def" := by
  decide

/-- C4 (amended): the `csv_escape` helper does collapse newlines to
spaces and trim (its output contains no newline and is its own strip),
but it is never applied on the serialization path: each record field is
handed to the CSV writer unchanged, so embedded newlines and untrimmed
whitespace survive into serialization. -/
theorem c4_fields_serialized_unescaped (r : ArticleRecord) (v : Option String) :
    rowValues r =
      [some r.agency, some r.sec, some r.id, some r.published_iso,
       r.headline, some r.summary, some r.content, some r.url] ∧
    (csv_escape v).data.all (fun c => c ≠ '\n') = true ∧
    pyStrip (csv_escape v).data = (csv_escape v).data := by
  refine ⟨rfl, csv_escape_no_newline v, ?_⟩
  cases v with
  | none => rfl
  | some s => simpa [csv_escape] using pyStrip_idem (replaceNl s.data)

theorem contentOf_all_none {sel : String → Option (List String)} :
    ∀ sels : List String, (∀ c, c ∈ sels → sel c = none) → contentOf sel sels = "" := by
  intro sels
  induction sels with
  | nil => intro _; rfl
  | cons c rest ih =>
    intro h
    rw [contentOf, h c (by simp)]
    exact ih (fun x hx => h x (by simp [hx]))

/-- C6 counterexample: on a page whose og title meta tag exists but has
no content attribute, the extractor returns a null headline, not the
empty string the claim requires for a field whose value is not found. -/
theorem c6_counterexample :
    (extract_article (fun _ => none) htmlNoContentAttr "u").headline = none ∧
    htmlNoContentAttr.ogTitleTag = some none ∧
    (none : Option String) ≠ some "" := by
  refine ⟨rfl, rfl, ?_⟩
  decide

/-- C6 (amended): the extractor is a total function of the document
queries; the published timestamp is the empty string when the meta tag
is absent, has no content attribute, is empty, or fails to parse; the
content is empty when no selector matches; the summary is empty when
both description tags are absent; the headline is the empty string when
the og title tag is absent and there is no h1 — but when the og title
tag exists WITHOUT a content attribute the headline is null (Python
`None`), not the empty string. -/
theorem c6_extract_defaults (pIso : String → Option String) (d : HtmlDoc) (url : String) :
    ((d.pubTimeTag = none ∨ d.pubTimeTag = some none ∨ d.pubTimeTag = some (some "")) →
      (extract_article pIso d url).published_iso = "") ∧
    (∀ s, d.pubTimeTag = some (some s) → pIso ⟨replaceZ s.data⟩ = none →
      (extract_article pIso d url).published_iso = "") ∧
    ((∀ c, c ∈ candidateSelectors → d.select c = none) →
      (extract_article pIso d url).content = "") ∧
    (d.ogDescTag = none → d.nameDescTag = none →
      (extract_article pIso d url).summary = "") ∧
    (d.ogTitleTag = none → d.h1Text = none →
      (extract_article pIso d url).headline = some "") ∧
    (d.ogTitleTag = some none → (extract_article pIso d url).headline = none) := by
  refine ⟨?_, ?_, ?_, ?_, ?_, ?_⟩
  · rintro (h | h | h) <;> simp [extract_article, normalize_date, h]
  · intro s hs hp
    by_cases he : s = "" <;> simp [extract_article, normalize_date, hs, he, hp]
  · intro h
    simp [extract_article, contentOf_all_none candidateSelectors h]
  · intro h1 h2
    simp [extract_article, h1, h2]
  · intro h1 h2
    simp [extract_article, h1, h2, pyStripS, pyStrip, stripLead, stripTrail]
  · intro h
    simp [extract_article, h]

theorem c6_extract_defaults_witness :
    (extract_article (fun _ => none) htmlEmpty "u").summary = "" :=
  (c6_extract_defaults (fun _ => none) htmlEmpty "u").2.2.2.1 rfl rfl

theorem SECTION_PREFIX_TBL_ne_empty (s p : String) (h : SECTION_PREFIX_TBL s = some p) :
    p ≠ "" := by
  unfold SECTION_PREFIX_TBL at h
  split_ifs at h
  all_goals injection h with h2
  all_goals subst h2
  all_goals decide

theorem which_section_cons (url s : String) (rest : List String) :
    which_section url (s :: rest) =
      if ruleMatches url s then some s else which_section url rest := by
  cases hp : SECTION_PREFIX_TBL s with
  | none => simp [which_section, ruleMatches, hp]
  | some p =>
    have hpe : p ≠ "" := SECTION_PREFIX_TBL_ne_empty s p hp
    cases hf : SUBFILTERS s with
    | none =>
      by_cases hc : containsSub p url <;>
        simp [which_section, ruleMatches, hp, hf, hpe, hc]
    | some f =>
      by_cases hc : containsSub p url <;> by_cases hu : f url <;>
        simp [which_section, ruleMatches, hp, hf, hpe, hc, hu]

/-- C3: the classifier walks the requested section names exactly in the
order supplied by the caller and returns the first name whose rule (path
string occurs in the URL, and the sub-filter when present accepts it)
matches, or none when no requested section matches; this is precisely
`List.find?` of the specification-side rule over the requested list. -/
theorem c3_classifier_first_match (url : String) (secs : List String) :
    which_section url secs = secs.find? (fun s => ruleMatches url s) := by
  induction secs with
  | nil => rfl
  | cons s rest ih =>
    rw [which_section_cons]
    by_cases h : ruleMatches url s <;> simp [List.find?, h, ih]

theorem filterStep_seen_eq (secs : List String) (sinceDate : Int)
    (acc : List UrlEntry × List String) (item : UrlEntry)
    (h : acc.2 = acc.1.map (fun e => e.loc)) :
    (filterStep secs sinceDate acc item).2 =
      (filterStep secs sinceDate acc item).1.map (fun e => e.loc) := by
  unfold filterStep
  cases which_section item.loc secs with
  | none => exact h
  | some s =>
    dsimp only
    by_cases hm : item.loc ∈ acc.2
    · rw [if_pos hm]
      exact h
    · rw [if_neg hm]
      cases item.lastmod with
      | none => simp [h]
      | some lm =>
        dsimp only
        by_cases ho : lm < sinceDate
        · rw [if_pos ho]
          exact h
        · rw [if_neg ho]
          simp [h]

theorem filterStep_nodup (secs : List String) (sinceDate : Int)
    (acc : List UrlEntry × List String) (item : UrlEntry)
    (hn : acc.2.Nodup) :
    (filterStep secs sinceDate acc item).2.Nodup := by
  unfold filterStep
  cases which_section item.loc secs with
  | none => exact hn
  | some s =>
    dsimp only
    by_cases hm : item.loc ∈ acc.2
    · rw [if_pos hm]
      exact hn
    · rw [if_neg hm]
      cases item.lastmod with
      | none =>
        exact ((List.perm_append_singleton _ _).nodup_iff).2 (List.nodup_cons.2 ⟨hm, hn⟩)
      | some lm =>
        dsimp only
        by_cases ho : lm < sinceDate
        · rw [if_pos ho]
          exact hn
        · rw [if_neg ho]
          exact ((List.perm_append_singleton _ _).nodup_iff).2 (List.nodup_cons.2 ⟨hm, hn⟩)

theorem filterStep_members (secs : List String) (sinceDate : Int)
    (acc : List UrlEntry × List String) (item : UrlEntry)
    (hP : ∀ e, e ∈ acc.1 → which_section e.loc secs ≠ none ∧
      ∀ lm, e.lastmod = some lm → ¬ lm < sinceDate) :
    ∀ e, e ∈ (filterStep secs sinceDate acc item).1 →
      which_section e.loc secs ≠ none ∧
        ∀ lm, e.lastmod = some lm → ¬ lm < sinceDate := by
  unfold filterStep
  cases hws : which_section item.loc secs with
  | none => exact hP
  | some s =>
    dsimp only
    by_cases hm : item.loc ∈ acc.2
    · rw [if_pos hm]
      exact hP
    · rw [if_neg hm]
      cases hl : item.lastmod with
      | none =>
        intro e he
        rcases List.mem_append.1 he with h1 | h2
        · exact hP e h1
        · have he2 : e = item := by simpa using h2
          subst he2
          exact ⟨by simp [hws], by intro lm2 hlm2; rw [hl] at hlm2; cases hlm2⟩
      | some lm =>
        dsimp only
        by_cases ho : lm < sinceDate
        · rw [if_pos ho]
          exact hP
        · rw [if_neg ho]
          intro e he
          rcases List.mem_append.1 he with h1 | h2
          · exact hP e h1
          · have he2 : e = item := by simpa using h2
            subst he2
            refine ⟨by simp [hws], ?_⟩
            intro lm2 hlm2
            rw [hl] at hlm2
            cases hlm2
            exact ho

theorem filterStep_seen_mono (secs : List String) (sinceDate : Int)
    (acc : List UrlEntry × List String) (item : UrlEntry) :
    acc.2 ⊆ (filterStep secs sinceDate acc item).2 := by
  unfold filterStep
  cases which_section item.loc secs with
  | none => exact fun x hx => hx
  | some s =>
    dsimp only
    by_cases hm : item.loc ∈ acc.2
    · rw [if_pos hm]
      exact fun x hx => hx
    · rw [if_neg hm]
      cases item.lastmod with
      | none => exact fun x hx => List.mem_append_left _ hx
      | some lm =>
        dsimp only
        by_cases ho : lm < sinceDate
        · rw [if_pos ho]
          exact fun x hx => hx
        · rw [if_neg ho]
          exact fun x hx => List.mem_append_left _ hx

theorem filterStep_adds (secs : List String) (sinceDate : Int)
    (acc : List UrlEntry × List String) (item : UrlEntry)
    (h1 : which_section item.loc secs ≠ none) (h2 : item.lastmod = none) :
    item.loc ∈ (filterStep secs sinceDate acc item).2 := by
  unfold filterStep
  cases hws : which_section item.loc secs with
  | none => exact absurd hws h1
  | some s =>
    dsimp only
    by_cases hm : item.loc ∈ acc.2
    · rw [if_pos hm]
      exact hm
    · rw [if_neg hm, h2]
      simp

theorem filterFold_inv (secs : List String) (sinceDate : Int) :
    ∀ (entries : List UrlEntry) (acc : List UrlEntry × List String),
      acc.2 = acc.1.map (fun e => e.loc) → acc.2.Nodup →
      (∀ e, e ∈ acc.1 → which_section e.loc secs ≠ none ∧
        ∀ lm, e.lastmod = some lm → ¬ lm < sinceDate) →
      ((entries.foldl (filterStep secs sinceDate) acc).2 =
          (entries.foldl (filterStep secs sinceDate) acc).1.map (fun e => e.loc) ∧
        (entries.foldl (filterStep secs sinceDate) acc).2.Nodup ∧
        ∀ e, e ∈ (entries.foldl (filterStep secs sinceDate) acc).1 →
          which_section e.loc secs ≠ none ∧
            ∀ lm, e.lastmod = some lm → ¬ lm < sinceDate) := by
  intro entries
  induction entries with
  | nil => intro acc h1 h2 h3; exact ⟨h1, h2, h3⟩
  | cons a rest ih =>
    intro acc h1 h2 h3
    exact ih (filterStep secs sinceDate acc a)
      (filterStep_seen_eq secs sinceDate acc a h1)
      (filterStep_nodup secs sinceDate acc a h2)
      (filterStep_members secs sinceDate acc a h3)

theorem filterFold_seen_mono (secs : List String) (sinceDate : Int) :
    ∀ (entries : List UrlEntry) (acc : List UrlEntry × List String),
      acc.2 ⊆ (entries.foldl (filterStep secs sinceDate) acc).2 := by
  intro entries
  induction entries with
  | nil => intro acc x hx; exact hx
  | cons a rest ih =>
    intro acc
    exact (filterStep_seen_mono secs sinceDate acc a).trans (ih _)

theorem filterFold_adds (secs : List String) (sinceDate : Int) :
    ∀ (entries : List UrlEntry) (acc : List UrlEntry × List String) (e : UrlEntry),
      e ∈ entries → which_section e.loc secs ≠ none → e.lastmod = none →
      e.loc ∈ (entries.foldl (filterStep secs sinceDate) acc).2 := by
  intro entries
  induction entries with
  | nil => intro acc e he; cases he
  | cons a rest ih =>
    intro acc e he h1 h2
    rcases List.mem_cons.1 he with rfl | hmem
    · exact filterFold_seen_mono secs sinceDate rest _
        (filterStep_adds secs sinceDate acc e h1 h2)
    · exact ih _ e hmem h1 h2

/-- C8: whatever the resolver produced — duplicate locations included —
each distinct location string appears at most once in the filtered
candidate set of the orchestrator. -/
theorem c8_candidate_locations_nodup (secs : List String) (sinceDate : Int)
    (entries : List UrlEntry) :
    ((filterCandidates secs sinceDate entries).map (fun e => e.loc)).Nodup := by
  have h := filterFold_inv secs sinceDate entries ([], [])
    rfl List.nodup_nil (by intro e he; cases he)
  have h2 := h.2.1
  rw [h.1] at h2
  exact h2

/-- C7: an entry with a known last-modified timestamp older than
`now - sinceDays` never reaches the candidate set; and an entry with an
absent last-modified timestamp is never excluded by the recency rule —
whenever it classifies to a requested section, its location is in the
candidate set (the only other exclusions being section mismatch, which
the hypothesis rules out, and deduplication, which still keeps the
location present). -/
theorem c7_recency_filter (secs : List String) (now sinceDays : Int)
    (entries : List UrlEntry) :
    (∀ e lm, e ∈ filterCandidates secs (now - sinceDays) entries →
      e.lastmod = some lm → ¬ lm < now - sinceDays) ∧
    (∀ e, e ∈ entries → e.lastmod = none → which_section e.loc secs ≠ none →
      e.loc ∈ (filterCandidates secs (now - sinceDays) entries).map (fun e2 => e2.loc)) := by
  have h := filterFold_inv secs (now - sinceDays) entries ([], [])
    rfl List.nodup_nil (by intro e he; cases he)
  constructor
  · intro e lm he hlm
    exact (h.2.2 e he).2 lm hlm
  · intro e he h1 h2
    have h3 := filterFold_adds secs (now - sinceDays) entries ([], []) e he h2 h1
    rw [h.1] at h3
    exact h3

theorem c7_recency_filter_witness :
    "https://x/news/politic/7" ∈
      (filterCandidates ["politic"] ((0 : Int) - 30)
        [⟨"https://x/news/politic/7", none⟩]).map (fun e2 => e2.loc) :=
  (c7_recency_filter ["politic"] 0 30 [⟨"https://x/news/politic/7", none⟩]).2
    ⟨"https://x/news/politic/7", none⟩ (by simp) rfl (by decide)

theorem which_section_mem (url : String) :
    ∀ (secs : List String) (s : String), which_section url secs = some s → s ∈ secs := by
  intro secs
  induction secs with
  | nil => intro s h; cases h
  | cons a rest ih =>
    intro s h
    rw [which_section_cons] at h
    by_cases hr : ruleMatches url a
    · rw [if_pos hr] at h
      cases h
      exact List.mem_cons_self a rest
    · rw [if_neg hr] at h
      exact List.mem_cons_of_mem a (ih s h)

theorem mem_dedupKeys_aux :
    ∀ (l acc : List String) (s : String), s ∈ acc ∨ s ∈ l →
      s ∈ l.foldl (fun acc2 x => if x ∈ acc2 then acc2 else acc2 ++ [x]) acc := by
  intro l
  induction l with
  | nil =>
    intro acc s h
    rcases h with h | h
    · exact h
    · cases h
  | cons a rest ih =>
    intro acc s h
    rw [List.foldl_cons]
    apply ih
    by_cases ha : a ∈ acc
    · rw [if_pos ha]
      rcases h with h | h
      · exact Or.inl h
      · rcases List.mem_cons.1 h with rfl | h2
        · exact Or.inl ha
        · exact Or.inr h2
    · rw [if_neg ha]
      rcases h with h | h
      · exact Or.inl (List.mem_append_left _ h)
      · rcases List.mem_cons.1 h with rfl | h2
        · exact Or.inl (by simp)
        · exact Or.inr h2

theorem mem_dedupKeys (secs : List String) (s : String) (h : s ∈ secs) :
    s ∈ dedupKeys secs :=
  mem_dedupKeys_aux secs [] s (Or.inr h)

theorem results0_keys (secs : List String) :
    (results0 secs).map Prod.fst = dedupKeys secs := by
  have h : (Prod.fst ∘ fun s : String => (s, ([] : List ArticleRecord))) = id := by
    funext x
    rfl
  simp [results0, h]

theorem appendRec_some :
    ∀ (res : List (String × List ArticleRecord)) (s : String) (r : ArticleRecord),
      s ∈ res.map Prod.fst →
      ∃ res2, appendRec res s r = some res2 ∧ res2.map Prod.fst = res.map Prod.fst := by
  intro res
  induction res with
  | nil =>
    intro s r h
    simp at h
  | cons kv rest ih =>
    obtain ⟨k, v⟩ := kv
    intro s r h
    by_cases hk : k = s
    · exact ⟨(k, v ++ [r]) :: rest, by simp [appendRec, hk], by simp⟩
    · have hs : s ∈ rest.map Prod.fst := by
        rcases (by simpa using h : s = k ∨ s ∈ rest.map Prod.fst) with h1 | h1
        · exact absurd h1.symm hk
        · exact h1
      obtain ⟨res2, hr2, hk2⟩ := ih s r hs
      exact ⟨(k, v) :: res2, by simp [appendRec, hk, hr2], by simp [hk2]⟩

/-- Did both attempts of the retrying fetch fail for this URL? -/
def fetchFails (net : String → Nat → Except String String) (loc : String) : Bool :=
  match (fetch_with_fast_retry net loc).1 with
  | .error _ => true
  | .ok _ => false

theorem processLoop_counts (o : Oracles) (secs : List String) :
    ∀ (filtered : List UrlEntry) (st : List (String × List ArticleRecord) × Nat × Nat),
      (∀ e, e ∈ filtered → which_section e.loc secs ≠ none) →
      st.1.map Prod.fst = dedupKeys secs →
      ((filtered.foldl (processStep o secs) st).2.2 =
          st.2.2 + (filtered.filter (fun e => fetchFails o.net e.loc)).length ∧
        (filtered.foldl (processStep o secs) st).2.1 =
          st.2.1 + (filtered.filter (fun e => ! fetchFails o.net e.loc)).length) := by
  intro filtered
  induction filtered with
  | nil =>
    intro st h1 h2
    simp
  | cons a rest ih =>
    intro st h1 h2
    have ha := h1 a (by simp)
    cases hf : (fetch_with_fast_retry o.net a.loc).1 with
    | error err =>
      have hstep : processStep o secs st a = (st.1, st.2.1, st.2.2 + 1) := by
        unfold processStep
        rw [hf]
      have hff : fetchFails o.net a.loc = true := by
        unfold fetchFails
        rw [hf]
      have hrec := ih (processStep o secs st a) (fun e he => h1 e (by simp [he]))
        (by rw [hstep]; exact h2)
      rw [List.foldl_cons]
      constructor
      · rw [hrec.1, hstep]
        simp [List.filter_cons, hff]
        omega
      · rw [hrec.2, hstep]
        simp [List.filter_cons, hff]
    | ok html =>
      obtain ⟨sv, hsv⟩ : ∃ sv, which_section a.loc secs = some sv := by
        cases hw : which_section a.loc secs with
        | none => exact absurd hw ha
        | some x => exact ⟨x, rfl⟩
      have hmem : sv ∈ st.1.map Prod.fst := by
        rw [h2]
        exact mem_dedupKeys secs sv (which_section_mem a.loc secs sv hsv)
      obtain ⟨res2, hr2, hk2⟩ := appendRec_some st.1 sv
        (assembleRecord sv o.nowTs a.loc
          (extract_article o.pIso (o.parseHtml html) a.loc)) hmem
      have hstep : processStep o secs st a = (res2, st.2.1 + 1, st.2.2) := by
        unfold processStep
        rw [hf]
        dsimp only
        rw [hsv]
        dsimp only
        rw [hr2]
      have hff : fetchFails o.net a.loc = false := by
        unfold fetchFails
        rw [hf]
      have hrec := ih (processStep o secs st a) (fun e he => h1 e (by simp [he]))
        (by rw [hstep]; dsimp only; rw [hk2]; exact h2)
      rw [List.foldl_cons]
      constructor
      · rw [hrec.1, hstep]
        simp [List.filter_cons, hff]
      · rw [hrec.2, hstep]
        simp [List.filter_cons, hff]
        omega

/-- C10: every candidate that survives the filter loop classifies to some
section name under the same requested set when the processing loop
re-invokes the classifier (the classifier is a pure function, so the
re-invocation yields the same non-absent name the filter saw), that name
is a key of the per-section results map, and consequently the loop never
loses a record to a missing key: the failure counter counts exactly the
candidates whose two fetch attempts failed, and every other candidate is
recorded as a success. -/
theorem c10_section_key_present (o : Oracles) (secs : List String) (sinceDate : Int)
    (entries : List UrlEntry) :
    (∀ e, e ∈ filterCandidates secs sinceDate entries →
      ∃ s, which_section e.loc secs = some s ∧
        s ∈ (results0 secs).map Prod.fst) ∧
    (processLoop o secs (filterCandidates secs sinceDate entries)).2.2 =
      ((filterCandidates secs sinceDate entries).filter
        (fun e => fetchFails o.net e.loc)).length ∧
    (processLoop o secs (filterCandidates secs sinceDate entries)).2.1 =
      ((filterCandidates secs sinceDate entries).filter
        (fun e => ! fetchFails o.net e.loc)).length := by
  have hinv := filterFold_inv secs sinceDate entries ([], []) rfl List.nodup_nil
    (by intro e he; cases he)
  have hprop : ∀ e, e ∈ filterCandidates secs sinceDate entries →
      which_section e.loc secs ≠ none :=
    fun e he => (hinv.2.2 e he).1
  have hcounts := processLoop_counts o secs (filterCandidates secs sinceDate entries)
    (results0 secs, 0, 0) hprop (results0_keys secs)
  refine ⟨?_, ?_, ?_⟩
  · intro e he
    obtain ⟨sv, hsv⟩ : ∃ sv, which_section e.loc secs = some sv := by
      cases hw : which_section e.loc secs with
      | none => exact absurd hw (hprop e he)
      | some x => exact ⟨x, rfl⟩
    refine ⟨sv, hsv, ?_⟩
    rw [results0_keys]
    exact mem_dedupKeys secs sv (which_section_mem e.loc secs sv hsv)
  · simpa [processLoop] using hcounts.1
  · simpa [processLoop] using hcounts.2

theorem c10_section_key_present_witness :
    which_section "https://x/news/politic/5" ["politic"] = some "politic" ∧
    "politic" ∈ (results0 ["politic"]).map Prod.fst := by
  obtain ⟨s, hs, hk⟩ :=
    (c10_section_key_present oraclesTrivial ["politic"] 5
        [⟨"https://x/news/politic/5", none⟩]).1
      ⟨"https://x/news/politic/5", none⟩ (by decide)
  have hval : which_section "https://x/news/politic/5" ["politic"] = some "politic" := by
    decide
  have hseq : s = "politic" := by
    have := hval.symm.trans hs
    exact (Option.some.inj this).symm
  subst hseq
  exact ⟨hs, hk⟩

theorem takeDigits_eq : ∀ l : List Char,
    takeDigits l = (l.takeWhile Char.isDigit, l.dropWhile Char.isDigit) := by
  intro l
  induction l with
  | nil => rfl
  | cons c t ih =>
    by_cases hd : c.isDigit
    · simp [takeDigits, List.takeWhile_cons, List.dropWhile_cons, hd, ih]
    · simp [takeDigits, List.takeWhile_cons, List.dropWhile_cons, hd]

theorem takeWhile_all_append (p : Char → Bool) :
    ∀ (ds r : List Char), ds.all p = true → (∀ c t, r = c :: t → p c = false) →
      (ds ++ r).takeWhile p = ds ∧ (ds ++ r).dropWhile p = r := by
  intro ds
  induction ds with
  | nil =>
    intro r h1 h2
    cases r with
    | nil => exact ⟨rfl, rfl⟩
    | cons c t =>
      constructor
      · simp [List.takeWhile_cons, h2 c t rfl]
      · simp [List.dropWhile_cons, h2 c t rfl]
  | cons d ds2 ih =>
    intro r h1 h2
    rw [List.all_cons, Bool.and_eq_true] at h1
    obtain ⟨ht, hdr⟩ := ih r h1.2 h2
    constructor
    · simp [List.takeWhile_cons, h1.1, ht]
    · simp [List.dropWhile_cons, h1.1, hdr]

/-- Specification-side segment notion at the head of a list. -/
def NumSegAt0 (l ds : List Char) : Prop :=
  ds ≠ [] ∧ ds.all Char.isDigit = true ∧
    ∃ r, l = '/' :: (ds ++ r) ∧
      (r = [] ∨ ∃ c t, r = c :: t ∧ (c = '/' ∨ c = '?' ∨ c = '#'))

theorem idMatchHere_some_iff (l ds : List Char) :
    idMatchHere l = some ds ↔ NumSegAt0 l ds := by
  constructor
  · intro h
    cases l with
    | nil => cases h
    | cons c rest =>
      by_cases hc : c = '/'
      · subst hc
        simp only [idMatchHere, if_pos rfl] at h
        rw [takeDigits_eq rest] at h
        by_cases h0 : rest.takeWhile Char.isDigit = []
        · rw [if_pos h0] at h
          cases h
        · rw [if_neg h0] at h
          have hall : (rest.takeWhile Char.isDigit).all Char.isDigit = true := by
            rw [List.all_eq_true]
            intro x hx
            exact List.mem_takeWhile_imp hx
          cases hdwc : rest.dropWhile Char.isDigit with
          | nil =>
            rw [hdwc] at h
            simp only at h
            cases h
            refine ⟨h0, hall, [], ?_, Or.inl rfl⟩
            rw [List.append_nil]
            rw [show rest.takeWhile Char.isDigit = rest.takeWhile Char.isDigit ++ rest.dropWhile Char.isDigit from by rw [hdwc, List.append_nil]]
            rw [List.takeWhile_append_dropWhile]
          | cons c2 t2 =>
            rw [hdwc] at h
            simp only at h
            by_cases hc2 : c2 = '/' ∨ c2 = '?' ∨ c2 = '#'
            · rw [if_pos hc2] at h
              cases h
              refine ⟨h0, hall, c2 :: t2, ?_, Or.inr ⟨c2, t2, rfl, hc2⟩⟩
              rw [show rest.takeWhile Char.isDigit ++ c2 :: t2 = rest.takeWhile Char.isDigit ++ rest.dropWhile Char.isDigit from by rw [hdwc]]
              rw [List.takeWhile_append_dropWhile]
            · rw [if_neg hc2] at h
              cases h
      · simp only [idMatchHere, if_neg hc] at h
        cases h
  · rintro ⟨hne, hdig, r, hl, hbound⟩
    subst hl
    have hb : ∀ c t, r = c :: t → Char.isDigit c = false := by
      intro c t hr
      rcases hbound with h1 | ⟨c3, t3, h3, h4⟩
      · rw [h1] at hr
        cases hr
      · rw [h3] at hr
        injection hr with e1 e2
        subst e1
        rcases h4 with rfl | rfl | rfl <;> decide
    obtain ⟨ht, hd2⟩ := takeWhile_all_append Char.isDigit ds r hdig hb
    simp only [idMatchHere, if_pos rfl]
    rw [takeDigits_eq]
    simp only [ht, hd2]
    rw [if_neg hne]
    rcases hbound with rfl | ⟨c3, t3, rfl, h4⟩
    · rfl
    · simp [h4]

theorem NumSegAt_iff (u : List Char) (i : Nat) (ds : List Char) :
    NumSegAt u i ds ↔ idMatchHere (u.drop i) = some ds :=
  (idMatchHere_some_iff (u.drop i) ds).symm

theorem searchId_none_all :
    ∀ l : List Char, searchId l = none → ∀ i, idMatchHere (l.drop i) = none := by
  intro l
  induction l with
  | nil =>
    intro _ i
    rw [List.drop_nil]
    rfl
  | cons c t ih =>
    intro h i
    have h0 : idMatchHere (c :: t) = none := by
      cases hm : idMatchHere (c :: t) with
      | none => rfl
      | some ds =>
        rw [searchId, hm] at h
        cases h
    have ht : searchId t = none := by
      rw [searchId, h0] at h
      exact h
    cases i with
    | zero => exact h0
    | succ j =>
      rw [List.drop_succ_cons]
      exact ih ht j

theorem searchId_some_first :
    ∀ (l ds : List Char), searchId l = some ds →
      ∃ i, idMatchHere (l.drop i) = some ds ∧ ∀ j, j < i → idMatchHere (l.drop j) = none := by
  intro l
  induction l with
  | nil => intro ds h; cases h
  | cons c t ih =>
    intro ds h
    cases hm : idMatchHere (c :: t) with
    | some ds2 =>
      have he : ds2 = ds := by
        rw [searchId, hm] at h
        exact Option.some.inj h
      subst he
      exact ⟨0, hm, fun j hj => absurd hj (Nat.not_lt_zero j)⟩
    | none =>
      have ht : searchId t = some ds := by
        rw [searchId, hm] at h
        exact h
      obtain ⟨i, hi, hj⟩ := ih ds ht
      refine ⟨i + 1, by simpa using hi, ?_⟩
      intro j hjlt
      cases j with
      | zero => exact hm
      | succ k =>
        rw [List.drop_succ_cons]
        exact hj k (by omega)

theorem natDigits_ne_nil (fuel n : Nat) : natDigits (fuel + 1) n ≠ [] := by
  unfold natDigits
  by_cases h : n < 10 <;> simp [h]

theorem pyStrN_ne_empty (n : Nat) : pyStrN n ≠ "" := by
  intro h
  exact natDigits_ne_nil n n (congrArg String.data h)

/-- C1 (amended): the id injected into the assembled record is the FIRST
(leftmost) purely numeric path segment of the URL when one exists — the
source uses a leftmost regex search, not the last segment — and otherwise
the current Unix timestamp printed as a string; in all cases the id is
non-empty. -/
theorem c1_id_first_numeric_segment (u : String) (nowTs : Nat) :
    mkId u nowTs ≠ "" ∧
    (∀ ds, searchId u.data = some ds →
      (mkId u nowTs).data = ds ∧
      ∃ i, NumSegAt u.data i ds ∧ ∀ j ds2, NumSegAt u.data j ds2 → i ≤ j) ∧
    (searchId u.data = none →
      mkId u nowTs = pyStrN nowTs ∧ ∀ i ds, ¬ NumSegAt u.data i ds) := by
  cases hs : searchId u.data with
  | none =>
    have hid : extract_id_from_url u = "" := by
      rw [extract_id_from_url, hs]
      rfl
    have hmk : mkId u nowTs = pyStrN nowTs := by
      rw [mkId, if_pos hid]
    refine ⟨?_, ?_, ?_⟩
    · rw [hmk]
      exact pyStrN_ne_empty nowTs
    · intro ds hds
      cases hds
    · intro _
      refine ⟨hmk, ?_⟩
      intro i ds hn
      have h2 := (NumSegAt_iff u.data i ds).1 hn
      rw [searchId_none_all u.data hs i] at h2
      cases h2
  | some ds0 =>
    have hprops := searchId_some_first u.data ds0 hs
    have hne : ds0 ≠ [] := by
      obtain ⟨i, hi, _⟩ := hprops
      exact ((idMatchHere_some_iff _ _).1 hi).1
    have hid : extract_id_from_url u = ⟨ds0⟩ := by
      rw [extract_id_from_url, hs]
      rfl
    have hid_ne : extract_id_from_url u ≠ "" := by
      rw [hid]
      intro hcon
      exact hne (congrArg String.data hcon)
    have hmk : mkId u nowTs = ⟨ds0⟩ := by
      rw [mkId, if_neg hid_ne, hid]
    refine ⟨?_, ?_, ?_⟩
    · rw [hmk]
      intro hc
      exact hne (congrArg String.data hc)
    · intro ds hds
      have he : ds0 = ds := Option.some.inj hds
      subst he
      refine ⟨by rw [hmk], ?_⟩
      obtain ⟨i, hi, hj⟩ := hprops
      refine ⟨i, (NumSegAt_iff _ _ _).2 hi, ?_⟩
      intro j ds2 hn
      by_contra hlt
      push_neg at hlt
      have h2 := (NumSegAt_iff _ _ _).1 hn
      rw [hj j hlt] at h2
      cases h2
    · intro hnone
      cases hnone

/-- C1 counterexample: on a URL with two numeric path segments the id
injected into the assembled record is the first one, not the last one
named by the claim. -/
theorem c1_counterexample :
    (assembleRecord "politic" 999 "https://x/11/22"
        (extract_article (fun _ => none) htmlEmpty "https://x/11/22")).id = "11" ∧
    lastNumericSegment_spec "https://x/11/22".data = some "22".data ∧
    ("11" : String) ≠ "22" := by
  decide

theorem c1_id_first_numeric_segment_witness :
    (mkId "https://x/a/987" 7).data = "987".data :=
  ((c1_id_first_numeric_segment "https://x/a/987" 7).2.1 "987".data (by decide)).1
